import Mathlib

/- A shallow embedding of src/json_fix.py.

   Text is a `List Char` and a line is a `List Char`.  Pure functions of the
   source are translated one to one.  Printing is dropped: in the source no
   print statement affects any returned value.  File I/O is abstracted: the
   repair engine receives the input file's text and, optionally, the text
   previously saved at the derived output path, and returns an `Outcome`
   describing the message it reports and the write it performs.  The Python
   exception raised by indexing an empty list is modelled with `Option`.
   The JSON decode primitive (json.loads) and the canonical serializer
   (json.dumps with indent 4) are external collaborators; the engine is
   parameterised over them. -/

/-- Whitespace as matched by the regex class \s and stripped by str.strip in
    the source (the ASCII part; exotic Unicode whitespace, which no input
    considered here contains, is elided). -/
def isPySpace (c : Char) : Bool :=
  c == ' ' || c == '\t' || c == '\n' || c == '\r' || c == '\x0b' || c == '\x0c'

/-- Single-character line boundaries of Python str.splitlines. -/
def isNewlineChar (c : Char) : Bool :=
  c == '\n' || c == '\r' || c == '\x0b' || c == '\x0c' || c == '\x1c' ||
  c == '\x1d' || c == '\x1e' || c == '\x85' || c == '\u2028' || c == '\u2029'

/-- Worker for Python content.splitlines(): acc is the current line read so
    far; the two-character boundary CR LF counts once; a final unterminated
    nonempty segment is a line; the empty text yields no lines. -/
def splitlinesGo (acc : List Char) : List Char → List (List Char)
  | [] => if acc = [] then [] else [acc]
  | '\r' :: '\n' :: rest => acc :: splitlinesGo [] rest
  | c :: rest =>
    if isNewlineChar c then acc :: splitlinesGo [] rest
    else splitlinesGo (acc ++ [c]) rest

/-- Python content.splitlines(). -/
def splitlines (content : List Char) : List (List Char) :=
  splitlinesGo [] content

/-- Python "\n".join(lines). -/
def joinLines (lines : List (List Char)) : List Char :=
  List.intercalate ['\n'] lines

/-- One diagnostic message.  Each constructor abstracts one of the f-string
    messages of the source, carrying exactly the data interpolated into it:
    extraClosing c i for the message about an extra closing bracket c at
    line i (json_fix.py line 21); missingClosing c i for the message about a
    missing closer for opener c opened at line i (line 26); missingComma i
    for the missing-comma message at line i (line 44). -/
inductive Finding where
  | extraClosing (bracket : Char) (line : Nat)
  | missingClosing (bracket : Char) (line : Nat)
  | missingComma (line : Nat)
  deriving DecidableEq

/-- The matched-pair test on json_fix.py line 18: the stack top is an opener
    of the kind matching the closer c. -/
def bracketMatches (top : Char × Nat) (c : Char) : Bool :=
  (top.1 == '{' && c == '}') || (top.1 == '[' && c == ']')

/-- Inner character loop of detect_unbalanced_brackets_with_report
    (json_fix.py lines 14-21) over one line.  The Python list used as a
    stack (append and pop at the right end) is modelled with its top at the
    head.  i is the 1-based line number; rp accumulates reports in emission
    order at the tail, as list.append does. -/
def scanLine (i : Nat) : List Char → List (Char × Nat) → List Finding →
    List (Char × Nat) × List Finding
  | [], st, rp => (st, rp)
  | c :: cs, st, rp =>
    if c = '{' ∨ c = '[' then
      scanLine i cs ((c, i) :: st) rp
    else if c = '}' ∨ c = ']' then
      match st with
      | top :: rest =>
        if bracketMatches top c then scanLine i cs rest rp
        else scanLine i cs (top :: rest) (rp ++ [Finding.extraClosing c i])
      | [] => scanLine i cs [] (rp ++ [Finding.extraClosing c i])
    else
      scanLine i cs st rp

/-- Outer loop of the scanner over enumerate with 1-based line numbers. -/
def scanLines : Nat → List (List Char) → List (Char × Nat) → List Finding →
    List (Char × Nat) × List Finding
  | _, [], st, rp => (st, rp)
  | i, l :: ls, st, rp =>
    let r := scanLine i l st rp
    scanLines (i + 1) ls r.1 r.2

/-- json_fix.py lines 4-27.  Scans the lines of the content, then drains the
    remaining stack LIFO (head first here) into missing-closer reports.  It
    returns only the report list; the text is not part of the result. -/
def detect_unbalanced_brackets_with_report (content : List Char) : List Finding :=
  let r := scanLines 1 (splitlines content) [] []
  r.2 ++ r.1.map (fun p => Finding.missingClosing p.1 p.2)

/-- Python line.strip(): remove leading and trailing whitespace. -/
def pyStrip (l : List Char) : List Char :=
  ((l.dropWhile isPySpace).reverse.dropWhile isPySpace).reverse

/-- The insertion test of json_fix.py lines 40-42: the stripped current line
    ends with a closing brace or bracket and the stripped next line starts
    with a double quote, an opening brace or an opening bracket. -/
def needsComma (cur next : List Char) : Bool :=
  ((pyStrip cur).getLast? == some '}' || (pyStrip cur).getLast? == some ']') &&
  ((pyStrip next).head? == some '"' || (pyStrip next).head? == some '{' ||
    (pyStrip next).head? == some '[')

/-- The loop of json_fix.py lines 35-49 on a nonempty list of lines: for
    each adjacent pair, append a comma to the left line when needsComma
    holds, recording a missing-comma report at i + 1 (i is the 0-based index
    of the left line); the final line is passed through unchanged. -/
def commaLoop (i : Nat) : List (List Char) → List (List Char) × List Finding
  | [] => ([], [])
  | [last] => ([last], [])
  | cur :: next :: rest =>
    let r := commaLoop (i + 1) (next :: rest)
    if needsComma cur next then
      ((cur ++ [',']) :: r.1, Finding.missingComma (i + 1) :: r.2)
    else
      (cur :: r.1, r.2)

/-- json_fix.py lines 29-50.  On the empty line list the source raises
    IndexError at lines[-1] (line 49), modelled as none. -/
def detect_missing_commas_with_report (lines : List (List Char)) :
    Option (List (List Char) × List Finding) :=
  match lines with
  | [] => none
  | _ :: _ => some (commaLoop 0 lines)

/-- Worker for json_fix.py line 54, re.sub with the pattern of a comma, then
    optional whitespace, then a captured closing bracket or brace, replaced
    by the capture.  The regex engine scans left to right; this single pass
    carries the scanning state: none when no candidate comma is pending,
    some ws when a comma has been read and ws is the whitespace run read
    after it.  On a closer the pending comma and whitespace are dropped and
    scanning resumes after the closer (non-overlapping matches); on any
    other non-space character the pending text is emitted unchanged, a
    fresh comma starting a new candidate exactly as the regex engine does
    when it rescans from the position after the failed comma (the skipped
    whitespace cannot itself start a match). -/
def rtcGo : Option (List Char) → List Char → List Char
  | none, [] => []
  | none, c :: rest =>
    if c = ',' then rtcGo (some []) rest else c :: rtcGo none rest
  | some ws, [] => ',' :: ws
  | some ws, c :: rest =>
    if isPySpace c then rtcGo (some (ws ++ [c])) rest
    else if c = ']' ∨ c = '}' then c :: rtcGo none rest
    else if c = ',' then ',' :: ws ++ rtcGo (some []) rest
    else ',' :: ws ++ c :: rtcGo none rest

/-- json_fix.py lines 52-54. -/
def remove_trailing_commas (content : List Char) : List Char :=
  rtcGo none content

/-- The accumulated net brace depth of json_fix.py lines 62-66: for each
    line add line.count of the opening brace minus line.count of the
    closing brace. -/
def netBraceDepth (lines : List (List Char)) : Int :=
  lines.foldl (fun d l => d + ((l.count '{' : Int) - (l.count '}' : Int))) 0

/-- The closer lines appended by the while loop of json_fix.py lines 69-71
    when open_braces starts at n: each iteration appends a line of
    open_braces - 1 groups of four spaces followed by a single closing
    brace, then decrements. -/
def closersN : Nat → List (List Char)
  | 0 => []
  | n + 1 => (List.replicate ((n + 1 - 1) * 4) ' ' ++ ['}']) :: closersN n

/-- json_fix.py lines 56-73.  The call to the scanner on line 58 only
    prints and does not affect the result; open_braces is an int and the
    while loop runs only while it is positive (Int.toNat is 0 on negative
    depth).  The result re-joins the split lines with the newline
    character. -/
def fix_unbalanced_brackets (content : List Char) : List Char :=
  let lines := splitlines content
  let openBraces := netBraceDepth lines
  joinLines (lines ++ closersN openBraces.toNat)

/-- json_fix.py lines 75-81: decode then re-serialize canonically; the
    decode error propagates as none. -/
def reformat_json {J : Type} (loads : List Char → Option J)
    (dumps : J → List Char) (content : List Char) : Option (List Char) :=
  (loads content).map dumps

/-- json_fix.py lines 91-119 (apply_fixes): trailing-comma removal, then
    bracket scan (reports kept) and bracket repair, then comma repair on
    the split lines; the flag records whether any stage changed the text.
    The IndexError raised by the comma stage on an empty line list
    propagates as none. -/
def apply_fixes (content : List Char) :
    Option (List Char × Bool × List Finding) :=
  let content1 := remove_trailing_commas content
  let reports1 := detect_unbalanced_brackets_with_report content1
  let content2 := fix_unbalanced_brackets content1
  let lines := splitlines content2
  match detect_missing_commas_with_report lines with
  | none => none
  | some (corrected, reports2) =>
    let fixedFlag :=
      (content1 != content) || (content2 != content1) || (corrected != lines)
    some (joinLines corrected, fixedFlag, reports1 ++ reports2)

/-- The terminal result of one engine invocation, one constructor per
    distinct reported message of json_linter_and_fixer:
    alreadyValid for the no-file-saved, already-valid-and-formatted return
    (line 136); noFurtherChanges for the no-further-fixes-necessary return
    when the formatted text equals the previously saved file (line 145);
    fixSuccessful written for the successful save of the formatted text
    (line 152); noProgress printed for the no-further-fixes-could-be-applied
    failure after printing that pass's findings (lines 156-158);
    maxAttempts for the reached-maximum-attempts failure (line 161);
    emptyLinesError for the IndexError surfaced by the generic unexpected
    error handler (lines 164-165). -/
inductive Outcome where
  | alreadyValid
  | noFurtherChanges
  | fixSuccessful (written : List Char)
  | noProgress (printed : List Finding)
  | maxAttempts
  | emptyLinesError
  deriving DecidableEq

/-- The file written by an outcome: only the successful-save outcome writes. -/
def writtenFile : Outcome → Option (List Char)
  | Outcome.fixSuccessful f => some f
  | _ => none

/-- An outcome that reports a terminal failure message rather than a
    success message. -/
def isFailure : Outcome → Bool
  | Outcome.alreadyValid => false
  | Outcome.noFurtherChanges => false
  | Outcome.fixSuccessful _ => false
  | Outcome.noProgress _ => true
  | Outcome.maxAttempts => true
  | Outcome.emptyLinesError => true

/-- The while loop of json_fix.py lines 129-161, with the remaining fuel of
    the 10-attempt bound as first argument.  Each entered iteration decodes
    the current text once (the success path re-decodes the same text inside
    reformat_json, deterministically yielding the same value, so the dumps
    of the decoded value is the formatted content).  original is the text
    first read from the input file and saved is the content of the derived
    output file when it exists.  The second component counts the entered
    iterations, one decode attempt each. -/
def loopGo {J : Type} (loads : List Char → Option J) (dumps : J → List Char)
    (original : List Char) (saved : Option (List Char)) :
    Nat → List Char → Outcome × Nat
  | 0, _ => (Outcome.maxAttempts, 0)
  | fuel + 1, content =>
    match loads content with
    | some v =>
      let formatted := dumps v
      if formatted = original then (Outcome.alreadyValid, 1)
      else if saved = some formatted then (Outcome.noFurtherChanges, 1)
      else (Outcome.fixSuccessful formatted, 1)
    | none =>
      match apply_fixes content with
      | none => (Outcome.emptyLinesError, 1)
      | some (content2, fixedFlag, reports) =>
        if fixedFlag then
          let r := loopGo loads dumps original saved fuel content2
          (r.1, r.2 + 1)
        else (Outcome.noProgress reports, 1)

/-- json_fix.py lines 83-165 with file I/O abstracted: content is the text
    read from the input path, saved the text at the derived corrected path
    when that file exists (none models FileNotFoundError on reading it);
    max_attempts is 10. -/
def json_linter_and_fixer {J : Type} (loads : List Char → Option J)
    (dumps : J → List Char) (content : List Char)
    (saved : Option (List Char)) : Outcome × Nat :=
  loopGo loads dumps content saved 10 content

/-- The pattern replaced on json_fix.py line 138. -/
def jsonSuffix : List Char := ['.', 'j', 's', 'o', 'n']

/-- The replacement written on json_fix.py line 138. -/
def correctedToken : List Char :=
  ['_', 'c', 'o', 'r', 'r', 'e', 'c', 't', 'e', 'd', '.', 'j', 's', 'o', 'n']

/-- Python file_path.replace of the five characters of jsonSuffix by
    correctedToken: str.replace with no count replaces every non-overlapping
    occurrence, scanning left to right. -/
def replaceJsonAll : List Char → List Char
  | '.' :: 'j' :: 's' :: 'o' :: 'n' :: rest => correctedToken ++ replaceJsonAll rest
  | c :: rest => c :: replaceJsonAll rest
  | [] => []

/-- json_fix.py line 138: the derived output path. -/
def corrected_path (file_path : List Char) : List Char :=
  replaceJsonAll file_path

/- Definitions below follow the words of the specification and of the
   claims, to be compared with the source translations above. -/

/-- Modelled from the claim C2 wording: the content as a single stream of
    characters tagged with their 1-based line numbers, in line order. -/
def linedChars : Nat → List (List Char) → List (Nat × Char)
  | _, [] => []
  | i, l :: ls => l.map (fun c => (i, c)) ++ linedChars (i + 1) ls

/-- Modelled from the claim C2 wording: process the tagged character stream
    with a stack of pairs of opener and 1-based line; push on an opener; on
    a closer pop only when the top is the matching opener kind and otherwise
    emit an extra-closing finding naming the current line, leaving the stack
    untouched; at end of input emit one missing-closing finding per
    remaining entry, popped in LIFO order, each naming the line on which
    that opener was pushed. -/
def scannerSpec : List (Nat × Char) → List (Char × Nat) → List Finding
  | [], st => st.map (fun p => Finding.missingClosing p.1 p.2)
  | (i, c) :: ts, st =>
    if c = '{' ∨ c = '[' then scannerSpec ts ((c, i) :: st)
    else if c = '}' ∨ c = ']' then
      match st with
      | top :: rest =>
        if bracketMatches top c then scannerSpec ts rest
        else Finding.extraClosing c i :: scannerSpec ts (top :: rest)
      | [] => Finding.extraClosing c i :: scannerSpec ts []
    else scannerSpec ts st

/-- Modelled from the claim C3 wording: an output line is the input line
    with a single comma appended exactly when the insertion test holds for
    it and its successor, and is the input line unchanged otherwise. -/
def commaFix (cur next : List Char) : List Char :=
  if needsComma cur next then cur ++ [','] else cur

/-- Modelled from the claim C3 wording: the finding emitted for the pair at
    0-based index i cites line i + 1 in 1-based numbering, exactly when the
    insertion test holds for the pair. -/
def commaFinding (p : Nat × (List Char × List Char)) : Option Finding :=
  if needsComma p.2.1 p.2.2 then some (Finding.missingComma (p.1 + 1)) else none

/-- No comma is followed, after optional whitespace, by another comma.  On
    such inputs a first pass of remove_trailing_commas cannot create a new
    match for a second pass to consume. -/
def commaCommaFree : List Char → Bool
  | [] => true
  | c :: rest =>
    if c = ',' ∧ (rest.dropWhile isPySpace).head? = some ',' then false
    else commaCommaFree rest

/-- Modelled from the claim C9 wording: replace only the first occurrence
    of jsonSuffix, leaving later occurrences intact. -/
def replaceFirstJson : List Char → List Char
  | [] => []
  | c :: rest =>
    if (c :: rest).take 5 = jsonSuffix then correctedToken ++ (c :: rest).drop 5
    else c :: replaceFirstJson rest

/-- The contents reached by the repair loop: runIter loads start k is the
    working text at the start of iteration k when the loop is still running
    there, that is when every earlier iteration failed to decode and
    applied fixes with progress; none otherwise. -/
def runIter {J : Type} (loads : List Char → Option J) (start : List Char) :
    Nat → Option (List Char)
  | 0 => some start
  | k + 1 =>
    match runIter loads start k with
    | none => none
    | some d =>
      match loads d with
      | some _ => none
      | none =>
        match apply_fixes d with
        | none => none
        | some (d', fixedFlag, _) => if fixedFlag then some d' else none

/- Theorems. -/

theorem closersN_length (n : Nat) : (closersN n).length = n := by
  induction n with
  | zero => rfl
  | succ n ih => simp [closersN, ih]

theorem closersN_getD (n j : Nat) (h : j < n) :
    (closersN n).getD j [] = List.replicate (4 * (n - 1 - j)) ' ' ++ ['}'] := by
  induction n generalizing j with
  | zero => omega
  | succ n ih =>
    cases j with
    | zero =>
      simp only [closersN, List.getD_cons_zero]
      congr 2
      omega
    | succ j =>
      simp only [closersN, List.getD_cons_succ]
      rw [ih j (by omega)]
      congr 2
      omega

/-- Claim C1: when the accumulated net brace depth N of the input is
    positive, fix_unbalanced_brackets appends exactly N lines, the j-th
    appended line (0-based, remaining depth N - j) being 4 * (N - j - 1)
    spaces followed by a single closing brace, a decreasing sequence of
    multiples of four; only closing braces are appended, so unmatched
    opening square brackets are never auto-closed by this stage. -/
theorem claim_C1 (content : List Char)
    (_h : 0 < netBraceDepth (splitlines content)) :
    ∃ appended : List (List Char),
      fix_unbalanced_brackets content = joinLines (splitlines content ++ appended) ∧
      appended.length = (netBraceDepth (splitlines content)).toNat ∧
      ∀ j, j < appended.length →
        appended.getD j [] =
          List.replicate (4 * ((netBraceDepth (splitlines content)).toNat - 1 - j)) ' ' ++ ['}'] := by
  refine ⟨closersN (netBraceDepth (splitlines content)).toNat, rfl, closersN_length _, ?_⟩
  intro j hj
  rw [closersN_length] at hj
  exact closersN_getD _ _ hj

/-- Witness for claim C1 at a concrete two-brace input. -/
theorem claim_C1_witness :
    0 < netBraceDepth (splitlines ['{', '\n', '{']) ∧
    ∃ appended : List (List Char),
      fix_unbalanced_brackets ['{', '\n', '{'] =
        joinLines (splitlines ['{', '\n', '{'] ++ appended) ∧
      appended.length = (netBraceDepth (splitlines ['{', '\n', '{'])).toNat ∧
      ∀ j, j < appended.length →
        appended.getD j [] =
          List.replicate (4 * ((netBraceDepth (splitlines ['{', '\n', '{'])).toNat - 1 - j)) ' ' ++ ['}'] :=
  ⟨by decide, claim_C1 ['{', '\n', '{'] (by decide)⟩

/-- Counterexample to claim C5 as stated: the single-newline text has net
    brace depth 0, yet fix_unbalanced_brackets does not return it
    byte-for-byte unchanged (splitting into lines and re-joining with the
    newline character drops the trailing line terminator). -/
theorem claim_C5_counterexample :
    netBraceDepth (splitlines ['\n']) ≤ 0 ∧
    fix_unbalanced_brackets ['\n'] ≠ ['\n'] := by decide

/-- Claim C5 amended: for net brace depth at or below zero (negative depth
    included) fix_unbalanced_brackets appends nothing and removes no
    closing brace: the result is exactly the newline-join of the input's
    lines, hence byte-for-byte the input precisely when the input already
    equals the newline-join of its own lines (a trailing newline or
    alternative line terminators are normalised away). -/
theorem claim_C5_amended (content : List Char)
    (h : netBraceDepth (splitlines content) ≤ 0) :
    fix_unbalanced_brackets content = joinLines (splitlines content) ∧
    (fix_unbalanced_brackets content = content ↔
      joinLines (splitlines content) = content) := by
  have h0 : (netBraceDepth (splitlines content)).toNat = 0 := Int.toNat_of_nonpos h
  have h1 : fix_unbalanced_brackets content = joinLines (splitlines content) := by
    show joinLines (splitlines content ++
      closersN (netBraceDepth (splitlines content)).toNat) = _
    rw [h0]
    simp [closersN]
  exact ⟨h1, by rw [h1]⟩

/-- Witness for the amended claim C5 at a negative-depth input. -/
theorem claim_C5_witness :
    netBraceDepth (splitlines ['}']) ≤ 0 ∧
    (fix_unbalanced_brackets ['}'] = joinLines (splitlines ['}']) ∧
      (fix_unbalanced_brackets ['}'] = ['}'] ↔
        joinLines (splitlines ['}']) = ['}'])) :=
  ⟨by decide, claim_C5_amended ['}'] (by decide)⟩

theorem replaceJsonAll_match (b : List Char) :
    replaceJsonAll ('.' :: 'j' :: 's' :: 'o' :: 'n' :: b) =
      correctedToken ++ replaceJsonAll b := rfl

theorem replaceJsonAll_cons (c : Char) (rest : List Char)
    (h : (c :: rest).take 5 ≠ jsonSuffix) :
    replaceJsonAll (c :: rest) = c :: replaceJsonAll rest := by
  rw [replaceJsonAll.eq_def]
  split
  · next r heq =>
    exfalso
    apply h
    rw [heq]
    rfl
  · rename_i c2 r2 hno heq
    injection heq with h1 h2
    rw [h1, h2]
  · exfalso
    simp_all

/-- Counterexample to claim C9 as stated: on a path with two occurrences of
    the .json pattern the code replaces both (Python str.replace with no
    count replaces every occurrence), not only the first as the claim
    asserts. -/
theorem claim_C9_counterexample :
    corrected_path ['a', '.', 'j', 's', 'o', 'n', '/', 'b', '.', 'j', 's', 'o', 'n'] ≠
      replaceFirstJson ['a', '.', 'j', 's', 'o', 'n', '/', 'b', '.', 'j', 's', 'o', 'n'] ∧
    corrected_path ['a', '.', 'j', 's', 'o', 'n', '/', 'b', '.', 'j', 's', 'o', 'n'] =
      ['a', '_', 'c', 'o', 'r', 'r', 'e', 'c', 't', 'e', 'd', '.', 'j', 's', 'o', 'n',
       '/', 'b', '_', 'c', 'o', 'r', 'r', 'e', 'c', 't', 'e', 'd', '.', 'j', 's', 'o', 'n'] ∧
    replaceFirstJson ['a', '.', 'j', 's', 'o', 'n', '/', 'b', '.', 'j', 's', 'o', 'n'] =
      ['a', '_', 'c', 'o', 'r', 'r', 'e', 'c', 't', 'e', 'd', '.', 'j', 's', 'o', 'n',
       '/', 'b', '.', 'j', 's', 'o', 'n'] := by decide

/-- Claim C9 amended: the output path replaces every occurrence of .json by
    _corrected.json, scanning left to right over non-overlapping matches:
    at the first occurrence (no earlier position starts a match) the prefix
    is kept, the replacement is emitted, and the remainder of the path is
    processed the same way, so later occurrences are replaced as well. -/
theorem claim_C9_amended (a b : List Char)
    (h : ∀ i, i < a.length → ((a ++ jsonSuffix ++ b).drop i).take 5 ≠ jsonSuffix) :
    corrected_path (a ++ jsonSuffix ++ b) = a ++ correctedToken ++ corrected_path b := by
  induction a with
  | nil =>
    show replaceJsonAll ('.' :: 'j' :: 's' :: 'o' :: 'n' :: b) = _
    rw [replaceJsonAll_match]
    rfl
  | cons c a ih =>
    have h0 := h 0 (by simp)
    show replaceJsonAll (c :: (a ++ jsonSuffix ++ b)) = _
    rw [replaceJsonAll_cons c _ (by simpa using h0)]
    have ih2 := ih (fun i hi => by
      have h3 := h (i + 1) (by simpa using hi)
      simpa using h3)
    rw [show replaceJsonAll (a ++ jsonSuffix ++ b) =
      corrected_path (a ++ jsonSuffix ++ b) from rfl, ih2]
    simp

/-- Witness for the amended claim C9 on a path whose tail holds a second
    occurrence. -/
theorem claim_C9_witness :
    (∀ i, i < (['a'] : List Char).length →
      (((['a'] ++ jsonSuffix ++ ['/', 'b', '.', 'j', 's', 'o', 'n']).drop i).take 5) ≠ jsonSuffix) ∧
    corrected_path (['a'] ++ jsonSuffix ++ ['/', 'b', '.', 'j', 's', 'o', 'n']) =
      ['a'] ++ correctedToken ++ corrected_path ['/', 'b', '.', 'j', 's', 'o', 'n'] :=
  ⟨by decide, claim_C9_amended ['a'] ['/', 'b', '.', 'j', 's', 'o', 'n'] (by decide)⟩

theorem isPySpace_ne_comma {c : Char} (h : isPySpace c = true) : c ≠ ',' := by
  intro hc
  subst hc
  exact absurd h (by decide)

theorem dropWhile_head_false (l : List Char) (d : Char) (t : List Char)
    (h : l.dropWhile isPySpace = d :: t) : isPySpace d = false := by
  induction l with
  | nil => simp [List.dropWhile] at h
  | cons c l ih =>
    rw [List.dropWhile_cons] at h
    by_cases hc : isPySpace c = true
    · rw [if_pos hc] at h
      exact ih h
    · rw [if_neg hc] at h
      injection h with h1 _
      rw [← h1]
      simpa using hc

theorem rtcGo_none_comma (l : List Char) :
    rtcGo none (',' :: l) = rtcGo (some []) l := by
  simp [rtcGo]

theorem rtcGo_none_cons (c : Char) (l : List Char) (h : c ≠ ',') :
    rtcGo none (c :: l) = c :: rtcGo none l := by
  simp [rtcGo, h]

theorem rtcGo_some_nil (ws : List Char) : rtcGo (some ws) [] = ',' :: ws := rfl

theorem rtcGo_some_space (c : Char) (ws l : List Char) (h : isPySpace c = true) :
    rtcGo (some ws) (c :: l) = rtcGo (some (ws ++ [c])) l := by
  simp [rtcGo, h]

theorem rtcGo_some_closer (c : Char) (ws l : List Char) (h : c = ']' ∨ c = '}') :
    rtcGo (some ws) (c :: l) = c :: rtcGo none l := by
  have hs : isPySpace c = false := by rcases h with h | h <;> subst h <;> decide
  simp [rtcGo, hs, h]

theorem rtcGo_some_other (c : Char) (ws l : List Char) (hs : isPySpace c = false)
    (hcl : ¬(c = ']' ∨ c = '}')) (hcm : c ≠ ',') :
    rtcGo (some ws) (c :: l) = ',' :: ws ++ c :: rtcGo none l := by
  simp [rtcGo, hs, hcl, hcm]

theorem rtcGo_some_spaces (w : List Char) (hw : ∀ c ∈ w, isPySpace c = true)
    (ws l : List Char) :
    rtcGo (some ws) (w ++ l) = rtcGo (some (ws ++ w)) l := by
  induction w generalizing ws with
  | nil => simp
  | cons c w ih =>
    have hc := hw c (by simp)
    rw [List.cons_append, rtcGo_some_space c ws (w ++ l) hc,
      ih (fun d hd => hw d (by simp [hd])) (ws ++ [c])]
    congr 2
    simp

theorem rtcGo_pending_spaces (w : List Char) (hw : ∀ c ∈ w, isPySpace c = true) :
    rtcGo (some []) w = ',' :: w := by
  have h := rtcGo_some_spaces w hw [] []
  simpa using h

theorem ccFree_cons {c : Char} {rest : List Char}
    (h : commaCommaFree (c :: rest) = true) : commaCommaFree rest = true := by
  simp only [commaCommaFree] at h
  split at h
  · exact absurd h (by simp)
  · exact h

theorem ccFree_suffix (l1 l2 : List Char)
    (h : commaCommaFree (l1 ++ l2) = true) : commaCommaFree l2 = true := by
  induction l1 with
  | nil => exact h
  | cons c l1 ih => exact ih (ccFree_cons h)

theorem ccFree_comma_head {rest : List Char}
    (h : commaCommaFree (',' :: rest) = true) :
    (rest.dropWhile isPySpace).head? ≠ some ',' := by
  intro hh
  simp only [commaCommaFree] at h
  split at h
  · exact absurd h (by simp)
  · rename_i hcond
    exact hcond ⟨by trivial, hh⟩

theorem rtc_idem_bounded :
    ∀ n (l : List Char), l.length ≤ n → commaCommaFree l = true →
      rtcGo none (rtcGo none l) = rtcGo none l := by
  intro n
  induction n with
  | zero =>
    intro l hl _
    have h0 : l = [] := List.eq_nil_of_length_eq_zero (Nat.le_zero.mp hl)
    subst h0
    rfl
  | succ n ih =>
    intro l hl hcc
    cases l with
    | nil => rfl
    | cons c rest =>
      by_cases hc : c = ','
      · subst hc
        have hwr : rest.takeWhile isPySpace ++ rest.dropWhile isPySpace = rest :=
          List.takeWhile_append_dropWhile isPySpace rest
        have hws : ∀ d ∈ rest.takeWhile isPySpace, isPySpace d = true :=
          fun d hd => List.mem_takeWhile_imp hd
        have hrest_len : rest.length ≤ n := by
          simp only [List.length_cons] at hl
          omega
        rw [rtcGo_none_comma, ← hwr,
          rtcGo_some_spaces _ hws [] (rest.dropWhile isPySpace), List.nil_append]
        cases hd : rest.dropWhile isPySpace with
        | nil =>
          rw [rtcGo_some_nil, rtcGo_none_comma, rtcGo_pending_spaces _ hws]
        | cons d tail =>
          have hds : isPySpace d = false := dropWhile_head_false rest d tail hd
          have htail_len : tail.length ≤ n := by
            have h1 : (d :: tail).length ≤ rest.length := by
              rw [← hd]
              exact (List.dropWhile_sublist isPySpace).length_le
            simp only [List.length_cons] at h1
            omega
          have h2 : rest.takeWhile isPySpace ++ (d :: tail) = rest := by
            rw [← hd]
            exact hwr
          have htail_cc : commaCommaFree tail = true := by
            apply ccFree_suffix ((',' :: rest.takeWhile isPySpace) ++ [d])
            have heq : ((',' :: rest.takeWhile isPySpace) ++ [d]) ++ tail =
                ',' :: rest := by
              rw [List.append_assoc, List.singleton_append, List.cons_append, h2]
            rw [heq]
            exact hcc
          by_cases hdc : d = ']' ∨ d = '}'
          · have hd_ne : d ≠ ',' := by rcases hdc with h | h <;> subst h <;> decide
            rw [rtcGo_some_closer d _ tail hdc,
              rtcGo_none_cons d _ hd_ne, ih tail htail_len htail_cc]
          · have hd_ne : d ≠ ',' := by
              intro hdd
              apply ccFree_comma_head hcc
              rw [hd, hdd]
              rfl
            rw [rtcGo_some_other d _ tail hds hdc hd_ne, List.cons_append,
              rtcGo_none_comma,
              rtcGo_some_spaces _ hws [] (d :: rtcGo none tail), List.nil_append,
              rtcGo_some_other d _ (rtcGo none tail) hds hdc hd_ne,
              ih tail htail_len htail_cc, List.cons_append]
      · have hrest_len : rest.length ≤ n := by
          simp only [List.length_cons] at hl
          omega
        rw [rtcGo_none_cons c rest hc, rtcGo_none_cons c (rtcGo none rest) hc,
          ih rest hrest_len (ccFree_cons hcc)]

/-- Counterexample to claim C4 as stated: the stripper is not idempotent.
    On the text of a comma, a comma and a closing bracket, the first pass
    removes only the second comma (the first comma is not followed by a
    closer so it does not match, and matches are non-overlapping), after
    which the surviving comma is followed by the closer, so a second pass
    removes it too. -/
theorem claim_C4_counterexample :
    remove_trailing_commas (remove_trailing_commas [',', ',', ']']) ≠
      remove_trailing_commas [',', ',', ']'] := by decide

/-- Claim C4 amended: remove_trailing_commas is idempotent on every text in
    which no comma is followed, after optional whitespace, by another comma;
    in general a second application can remove further commas, as on the
    comma-comma-closer counterexample. -/
theorem claim_C4_amended (l : List Char) (h : commaCommaFree l = true) :
    remove_trailing_commas (remove_trailing_commas l) = remove_trailing_commas l :=
  rtc_idem_bounded l.length l (Nat.le_refl _) h

/-- Witness for the amended claim C4. -/
theorem claim_C4_witness :
    commaCommaFree ['[', '1', ',', ' ', '2', ',', ' ', ']'] = true ∧
    remove_trailing_commas (remove_trailing_commas ['[', '1', ',', ' ', '2', ',', ' ', ']']) =
      remove_trailing_commas ['[', '1', ',', ' ', '2', ',', ' ', ']'] :=
  ⟨by decide, claim_C4_amended ['[', '1', ',', ' ', '2', ',', ' ', ']'] (by decide)⟩

theorem scanLine_acc (i : Nat) (cs : List Char) :
    ∀ (st : List (Char × Nat)) (rp : List Finding),
      scanLine i cs st rp =
        ((scanLine i cs st []).1, rp ++ (scanLine i cs st []).2) := by
  induction cs with
  | nil => intro st rp; simp [scanLine]
  | cons c cs ih =>
    intro st rp
    by_cases h1 : c = '{' ∨ c = '['
    · simp only [scanLine, if_pos h1]
      exact ih ((c, i) :: st) rp
    · by_cases h2 : c = '}' ∨ c = ']'
      · cases st with
        | nil =>
          simp only [scanLine, if_neg h1, if_pos h2, List.nil_append]
          rw [ih [] (rp ++ [Finding.extraClosing c i]),
            ih [] [Finding.extraClosing c i]]
          simp [List.append_assoc]
        | cons top rest =>
          by_cases h3 : bracketMatches top c = true
          · simp only [scanLine, if_neg h1, if_pos h2, if_pos h3]
            exact ih rest rp
          · simp only [scanLine, if_neg h1, if_pos h2, if_neg h3,
              List.nil_append]
            rw [ih (top :: rest) (rp ++ [Finding.extraClosing c i]),
              ih (top :: rest) [Finding.extraClosing c i]]
            simp [List.append_assoc]
      · simp only [scanLine, if_neg h1, if_neg h2]
        exact ih st rp

theorem scanLines_acc (ls : List (List Char)) :
    ∀ (i : Nat) (st : List (Char × Nat)) (rp : List Finding),
      scanLines i ls st rp =
        ((scanLines i ls st []).1, rp ++ (scanLines i ls st []).2) := by
  induction ls with
  | nil => intro i st rp; simp [scanLines]
  | cons l ls ih =>
    intro i st rp
    simp only [scanLines]
    rw [scanLine_acc i l st rp]
    rw [ih (i + 1) (scanLine i l st []).1 (rp ++ (scanLine i l st []).2)]
    rw [ih (i + 1) (scanLine i l st []).1 (scanLine i l st []).2]
    simp [List.append_assoc]

theorem scannerSpec_line (i : Nat) (cs : List Char) :
    ∀ (ts : List (Nat × Char)) (st : List (Char × Nat)),
      scannerSpec (cs.map (fun c => (i, c)) ++ ts) st =
        (scanLine i cs st []).2 ++ scannerSpec ts (scanLine i cs st []).1 := by
  induction cs with
  | nil => intro ts st; simp [scanLine]
  | cons c cs ih =>
    intro ts st
    by_cases h1 : c = '{' ∨ c = '['
    · simp only [List.map_cons, List.cons_append, scannerSpec, scanLine,
        if_pos h1]
      exact ih ts ((c, i) :: st)
    · by_cases h2 : c = '}' ∨ c = ']'
      · cases st with
        | nil =>
          simp only [List.map_cons, List.cons_append, scannerSpec, scanLine,
            if_neg h1, if_pos h2, List.nil_append, List.append_eq]
          rw [ih ts [], scanLine_acc i cs [] [Finding.extraClosing c i]]
          simp [List.append_assoc]
        | cons top rest =>
          by_cases h3 : bracketMatches top c = true
          · simp only [List.map_cons, List.cons_append, scannerSpec, scanLine,
              if_neg h1, if_pos h2, if_pos h3]
            exact ih ts rest
          · simp only [List.map_cons, List.cons_append, scannerSpec, scanLine,
              if_neg h1, if_pos h2, if_neg h3, List.nil_append, List.append_eq]
            rw [ih ts (top :: rest),
              scanLine_acc i cs (top :: rest) [Finding.extraClosing c i]]
            simp [List.append_assoc]
      · simp only [List.map_cons, List.cons_append, scannerSpec, scanLine,
          if_neg h1, if_neg h2]
        exact ih ts st

theorem scannerSpec_all (ls : List (List Char)) :
    ∀ (i : Nat) (st : List (Char × Nat)),
      scannerSpec (linedChars i ls) st =
        (scanLines i ls st []).2 ++
          (scanLines i ls st []).1.map (fun p => Finding.missingClosing p.1 p.2) := by
  induction ls with
  | nil => intro i st; simp [linedChars, scanLines, scannerSpec]
  | cons l ls ih =>
    intro i st
    simp only [linedChars, scanLines]
    rw [scannerSpec_line i l (linedChars (i + 1) ls) st]
    rw [ih (i + 1) (scanLine i l st []).1]
    rw [scanLines_acc ls (i + 1) (scanLine i l st []).1 (scanLine i l st []).2]
    simp [List.append_assoc]

/-- Claim C2: the bracket scanner of the source equals, on every input, the
    scanner described by the claim: process the characters in line order
    with a stack of opener and 1-based line pairs, pushing openers; on a
    closer pop only a matching top and otherwise emit an extra-closing
    finding naming the current line with the stack untouched; then emit one
    missing-closing finding per remaining entry in LIFO order, each naming
    the line of its push.  The function returns only this findings
    sequence; the text is not part of its result type, so it is never
    modified. -/
theorem claim_C2 (content : List Char) :
    detect_unbalanced_brackets_with_report content =
      scannerSpec (linedChars 1 (splitlines content)) [] := by
  rw [scannerSpec_all (splitlines content) 1 []]
  rfl

theorem commaLoop_eq (ls : List (List Char)) :
    ∀ (i : Nat) (cur : List Char),
      commaLoop i (cur :: ls) =
        (List.zipWith commaFix (cur :: ls) ls ++ [(cur :: ls).getLastD []],
          (List.enumFrom i ((cur :: ls).zip ls)).filterMap commaFinding) := by
  induction ls with
  | nil => intro i cur; simp [commaLoop, List.getLastD_cons]
  | cons next rest ih =>
    intro i cur
    simp only [commaLoop]
    rw [ih (i + 1) next]
    by_cases h : needsComma cur next = true
    · simp [commaFix, commaFinding, h, List.getLastD_cons, List.zip_cons_cons,
        List.enumFrom_cons, List.filterMap_cons]
    · simp [commaFix, commaFinding, h, List.getLastD_cons, List.zip_cons_cons,
        List.enumFrom_cons, List.filterMap_cons]

/-- Claim C3: on every nonempty list of lines the Comma Repair returns an
    output of exactly the input's length in which line i (for i before the
    last) is the input line with one comma appended exactly when the
    trimmed line i ends with a closing brace or bracket and the trimmed
    line i + 1 starts with a double quote, an opening brace or an opening
    bracket, and is the input line unchanged otherwise, the final line
    always copied through unmodified, together with one missing-comma
    finding per insertion citing line i + 1 in 1-based numbering.  (On the
    empty list the source raises instead of returning; see claim C10.) -/
theorem claim_C3 (lines : List (List Char)) (h : lines ≠ []) :
    detect_missing_commas_with_report lines =
      some (List.zipWith commaFix lines (lines.drop 1) ++ [lines.getLastD []],
        (List.enumFrom 0 (lines.zip (lines.drop 1))).filterMap commaFinding) ∧
    (List.zipWith commaFix lines (lines.drop 1) ++ [lines.getLastD []]).length =
      lines.length := by
  cases lines with
  | nil => exact absurd rfl h
  | cons cur ls =>
    constructor
    · show some (commaLoop 0 (cur :: ls)) = _
      rw [commaLoop_eq ls 0 cur]
      simp
    · rw [List.length_append, List.length_zipWith]
      simp

/-- Witness for claim C3 on a concrete two-line document. -/
theorem claim_C3_witness :
    ([['}'], ['{']] : List (List Char)) ≠ [] ∧
    (detect_missing_commas_with_report [['}'], ['{']] =
      some (List.zipWith commaFix [['}'], ['{']] ([['}'], ['{']].drop 1) ++
          [[['}'], ['{']].getLastD []],
        (List.enumFrom 0 ([['}'], ['{']].zip ([['}'], ['{']].drop 1))).filterMap
          commaFinding) ∧
      (List.zipWith commaFix [['}'], ['{']] ([['}'], ['{']].drop 1) ++
          [[['}'], ['{']].getLastD []]).length = ([['}'], ['{']] : List (List Char)).length) :=
  ⟨by decide, claim_C3 [['}'], ['{']] (by decide)⟩

/-- One unfolding step of the loop at positive fuel, stated as an equation
    so that concrete-fuel goals can be rewritten exactly once. -/
theorem loopGo_succ_eq {J : Type} (loads : List Char → Option J)
    (dumps : J → List Char) (original : List Char)
    (saved : Option (List Char)) (fuel : Nat) (content : List Char) :
    loopGo loads dumps original saved (fuel + 1) content =
      match loads content with
      | some v =>
        if dumps v = original then (Outcome.alreadyValid, 1)
        else if saved = some (dumps v) then (Outcome.noFurtherChanges, 1)
        else (Outcome.fixSuccessful (dumps v), 1)
      | none =>
        match apply_fixes content with
        | none => (Outcome.emptyLinesError, 1)
        | some (content2, fixedFlag, reports) =>
          if fixedFlag then
            ((loopGo loads dumps original saved fuel content2).1,
              (loopGo loads dumps original saved fuel content2).2 + 1)
          else (Outcome.noProgress reports, 1) := rfl

/-- Claim C8: when the input decodes and its canonical re-serialization is
    byte-identical to the loaded text, the engine reports the already-valid
    outcome on its first decode attempt and writes nothing. -/
theorem claim_C8 {J : Type} (loads : List Char → Option J)
    (dumps : J → List Char) (content : List Char) (saved : Option (List Char))
    (v : J) (h1 : loads content = some v) (h2 : dumps v = content) :
    json_linter_and_fixer loads dumps content saved = (Outcome.alreadyValid, 1) ∧
    writtenFile (json_linter_and_fixer loads dumps content saved).1 = none := by
  have hmain : json_linter_and_fixer loads dumps content saved =
      (Outcome.alreadyValid, 1) := by
    show loopGo loads dumps content saved (9 + 1) content = _
    simp [loopGo, h1, h2]
  exact ⟨hmain, by rw [hmain]; rfl⟩



/-- Witness for claim C8 with a one-value decoder whose serialization
    reproduces the input byte-for-byte. -/
theorem claim_C8_witness :
    (fun s => if s = ['7'] then some () else (none : Option Unit)) ['7'] = some () ∧
    (fun _ : Unit => ['7']) () = ['7'] ∧
    (json_linter_and_fixer (fun s => if s = ['7'] then some () else (none : Option Unit))
        (fun _ => ['7']) ['7'] none = (Outcome.alreadyValid, 1) ∧
      writtenFile (json_linter_and_fixer
        (fun s => if s = ['7'] then some () else (none : Option Unit))
        (fun _ => ['7']) ['7'] none).1 = none) :=
  ⟨by decide, rfl, claim_C8 _ _ ['7'] none () (by decide) rfl⟩

/-- Claim C10: the Comma Repair is partial at the boundary: on an empty
    line sequence it returns no output (the source raises IndexError); as a
    consequence, on empty file content that does not decode, the engine's
    first apply-fixes pass aborts and the run ends in the generic
    unexpected-error outcome rather than a structural-finding report. -/
theorem claim_C10 {J : Type} (loads : List Char → Option J)
    (dumps : J → List Char) (saved : Option (List Char))
    (h : loads [] = none) :
    detect_missing_commas_with_report ([] : List (List Char)) = none ∧
    apply_fixes [] = none ∧
    json_linter_and_fixer loads dumps [] saved = (Outcome.emptyLinesError, 1) := by
  refine ⟨rfl, rfl, ?_⟩
  show loopGo loads dumps [] saved (9 + 1) [] = _
  rw [loopGo_succ_eq, h]
  rfl

/-- Witness for claim C10 with an always-failing decoder (any JSON decoder
    fails on the empty text). -/
theorem claim_C10_witness :
    (fun _ : List Char => (none : Option Unit)) [] = none ∧
    (detect_missing_commas_with_report ([] : List (List Char)) = none ∧
      apply_fixes [] = none ∧
      json_linter_and_fixer (fun _ : List Char => (none : Option Unit))
        (fun _ => []) [] none = (Outcome.emptyLinesError, 1)) :=
  ⟨rfl, claim_C10 _ _ none rfl⟩

theorem loopGo_replay {J : Type} (loads : List Char → Option J)
    (dumps : J → List Char) (original F : List Char) :
    ∀ (fuel : Nat) (content : List Char),
      (loopGo loads dumps original none fuel content).1 = Outcome.fixSuccessful F →
      (loopGo loads dumps original (some F) fuel content).1 =
        Outcome.noFurtherChanges := by
  intro fuel
  induction fuel with
  | zero =>
    intro content h
    exact absurd h (by simp [loopGo])
  | succ fuel ih =>
    intro content h
    cases hl : loads content with
    | some v =>
      by_cases hf : dumps v = original
      · exfalso
        simp only [loopGo, hl, if_pos hf] at h
        exact absurd h (by simp)
      · have hF : dumps v = F := by
          simp only [loopGo, hl, if_neg hf] at h
          simpa using h
        simp only [loopGo, hl, if_neg hf]
        rw [hF]
        simp
    | none =>
      cases ha : apply_fixes content with
      | none =>
        exfalso
        simp only [loopGo, hl, ha] at h
        exact absurd h (by simp)
      | some t =>
        obtain ⟨c2, fixedFlag, reports⟩ := t
        cases fixedFlag with
        | false =>
          exfalso
          simp only [loopGo, hl, ha] at h
          exact absurd h (by simp)
        | true =>
          simp only [loopGo, hl, ha] at h ⊢
          exact ih c2 h

/-- Claim C6: a second engine invocation on the same input, run after a
    successful repair wrote the formatted output at the derived path,
    reports the no-further-changes outcome and performs no write: the
    repair loop deterministically reproduces the same formatted text,
    which now equals the previously saved file. -/
theorem claim_C6 {J : Type} (loads : List Char → Option J)
    (dumps : J → List Char) (content F : List Char) (n : Nat)
    (h : json_linter_and_fixer loads dumps content none =
      (Outcome.fixSuccessful F, n)) :
    (json_linter_and_fixer loads dumps content (some F)).1 =
      Outcome.noFurtherChanges ∧
    writtenFile (json_linter_and_fixer loads dumps content (some F)).1 = none := by
  have h1 : (loopGo loads dumps content none 10 content).1 =
      Outcome.fixSuccessful F := by
    show (json_linter_and_fixer loads dumps content none).1 = _
    rw [h]
  have h2 := loopGo_replay loads dumps content F 10 content h1
  refine ⟨h2, ?_⟩
  show writtenFile (json_linter_and_fixer loads dumps content (some F)).1 = none
  rw [show (json_linter_and_fixer loads dumps content (some F)).1 =
    Outcome.noFurtherChanges from h2]
  rfl

/-- Witness for claim C6: a decoder accepting one text whose serialization
    differs from it, so the first run saves, and the replay with the saved
    file present reports no further changes. -/
theorem claim_C6_witness :
    json_linter_and_fixer (fun s => if s = ['1'] then some () else (none : Option Unit))
      (fun _ => ['2']) ['1'] none = (Outcome.fixSuccessful ['2'], 1) ∧
    ((json_linter_and_fixer (fun s => if s = ['1'] then some () else (none : Option Unit))
        (fun _ => ['2']) ['1'] (some ['2'])).1 = Outcome.noFurtherChanges ∧
      writtenFile (json_linter_and_fixer
        (fun s => if s = ['1'] then some () else (none : Option Unit))
        (fun _ => ['2']) ['1'] (some ['2'])).1 = none) :=
  ⟨by decide, claim_C6 _ _ ['1'] ['2'] 1 (by decide)⟩

/-- One unfolding step of runIter at a positive index. -/
theorem runIter_succ_eq {J : Type} (loads : List Char → Option J)
    (start : List Char) (k : Nat) :
    runIter loads start (k + 1) =
      match runIter loads start k with
      | none => none
      | some d =>
        match loads d with
        | some _ => none
        | none =>
          match apply_fixes d with
          | none => none
          | some (d', fixedFlag, _) => if fixedFlag then some d' else none := rfl

theorem runIter_none_succ {J : Type} (loads : List Char → Option J)
    (start : List Char) (k : Nat) (h : runIter loads start k = none) :
    runIter loads start (k + 1) = none := by
  rw [runIter_succ_eq, h]

theorem runIter_shift {J : Type} (loads : List Char → Option J)
    (s s' : List Char) (reports : List Finding) (hl : loads s = none)
    (ha : apply_fixes s = some (s', true, reports)) :
    ∀ k, runIter loads s (k + 1) = runIter loads s' k := by
  intro k
  induction k with
  | zero => simp [runIter, hl, ha]
  | succ k ih =>
    rw [runIter_succ_eq loads s (k + 1), ih, ← runIter_succ_eq loads s' k]

theorem runIter_decoded_none {J : Type} (loads : List Char → Option J)
    (s : List Char) (v : J) (hl : loads s = some v) :
    ∀ m, runIter loads s (m + 1) = none := by
  intro m
  induction m with
  | zero => simp [runIter, hl]
  | succ m ih => exact runIter_none_succ _ _ _ ih

theorem runIter_noProgress_none {J : Type} (loads : List Char → Option J)
    (s s' : List Char) (reports : List Finding) (hl : loads s = none)
    (ha : apply_fixes s = some (s', false, reports)) :
    ∀ m, runIter loads s (m + 1) = none := by
  intro m
  induction m with
  | zero => simp [runIter, hl, ha]
  | succ m ih => exact runIter_none_succ _ _ _ ih

theorem runIter_crash_none {J : Type} (loads : List Char → Option J)
    (s : List Char) (hl : loads s = none) (ha : apply_fixes s = none) :
    ∀ m, runIter loads s (m + 1) = none := by
  intro m
  induction m with
  | zero => simp [runIter, hl, ha]
  | succ m ih => exact runIter_none_succ _ _ _ ih

theorem loopGo_count_le {J : Type} (loads : List Char → Option J)
    (dumps : J → List Char) (original : List Char)
    (saved : Option (List Char)) :
    ∀ (fuel : Nat) (s : List Char),
      (loopGo loads dumps original saved fuel s).2 ≤ fuel := by
  intro fuel
  induction fuel with
  | zero => intro s; simp [loopGo]
  | succ fuel ih =>
    intro s
    cases hl : loads s with
    | some v =>
      rw [loopGo_succ_eq, hl]
      by_cases h1 : dumps v = original
      · simp [h1]
      · by_cases h2 : saved = some (dumps v)
        · simp [h1, h2]
        · simp [h1, h2]
    | none =>
      cases ha : apply_fixes s with
      | none =>
        rw [loopGo_succ_eq, hl, ha]
        simp
      | some t =>
        obtain ⟨s', fixedFlag, reports0⟩ := t
        cases fixedFlag with
        | false =>
          rw [loopGo_succ_eq, hl, ha]
          simp
        | true =>
          rw [loopGo_succ_eq, hl, ha]
          have := ih s'
          simp
          omega

theorem loopGo_outcome_iff {J : Type} (loads : List Char → Option J)
    (dumps : J → List Char) (original : List Char)
    (saved : Option (List Char)) :
    ∀ (fuel : Nat) (s : List Char),
      ((loopGo loads dumps original saved fuel s).1 = Outcome.maxAttempts ↔
        (runIter loads s fuel).isSome) ∧
      (∀ reports,
        (loopGo loads dumps original saved fuel s).1 = Outcome.noProgress reports ↔
        ∃ k, k < fuel ∧ ∃ d d', runIter loads s k = some d ∧ loads d = none ∧
          apply_fixes d = some (d', false, reports)) ∧
      ((loopGo loads dumps original saved fuel s).1 = Outcome.emptyLinesError ↔
        ∃ k, k < fuel ∧ ∃ d, runIter loads s k = some d ∧ loads d = none ∧
          apply_fixes d = none) := by
  intro fuel
  induction fuel with
  | zero =>
    intro s
    refine ⟨?_, ?_, ?_⟩
    · constructor
      · intro _
        simp [runIter]
      · intro _
        simp [loopGo]
    · intro reports
      constructor
      · intro h
        exact absurd h (by simp [loopGo])
      · rintro ⟨k, hk, -⟩
        omega
    · constructor
      · intro h
        exact absurd h (by simp [loopGo])
      · rintro ⟨k, hk, -⟩
        omega
  | succ fuel ih =>
    intro s
    cases hl : loads s with
    | some v =>
      have hIterNone : ∀ m, runIter loads s (m + 1) = none :=
        runIter_decoded_none loads s v hl
      have houtcome :
          (loopGo loads dumps original saved (fuel + 1) s).1 = Outcome.alreadyValid ∨
          (loopGo loads dumps original saved (fuel + 1) s).1 = Outcome.noFurtherChanges ∨
          (loopGo loads dumps original saved (fuel + 1) s).1 =
            Outcome.fixSuccessful (dumps v) := by
        rw [loopGo_succ_eq, hl]
        by_cases h1 : dumps v = original
        · left
          simp [h1]
        · by_cases h2 : saved = some (dumps v)
          · right
            left
            simp [h1, h2]
          · right
            right
            simp [h1, h2]
      have hne : ∀ o : Outcome,
          o ≠ Outcome.alreadyValid → o ≠ Outcome.noFurtherChanges →
          (∀ w, o ≠ Outcome.fixSuccessful w) →
          (loopGo loads dumps original saved (fuel + 1) s).1 ≠ o := by
        intro o n1 n2 n3 hcontra
        rcases houtcome with h | h | h
        · exact n1 (hcontra ▸ h)
        · exact n2 (hcontra ▸ h)
        · exact n3 (dumps v) (hcontra ▸ h)
      refine ⟨?_, ?_, ?_⟩
      · constructor
        · intro h
          exact absurd h (hne Outcome.maxAttempts (by simp) (by simp) (by simp))
        · intro h
          rw [hIterNone fuel] at h
          exact absurd h (by simp)
      · intro reports
        constructor
        · intro h
          exact absurd h (hne (Outcome.noProgress reports) (by simp) (by simp) (by simp))
        · rintro ⟨k, hk, d, d', hiter, hld, -⟩
          cases k with
          | zero =>
            rw [show runIter loads s 0 = some s from rfl] at hiter
            injection hiter with hds
            rw [← hds] at hld
            rw [hl] at hld
            exact absurd hld (by simp)
          | succ m =>
            rw [hIterNone m] at hiter
            exact absurd hiter (by simp)
      · constructor
        · intro h
          exact absurd h (hne Outcome.emptyLinesError (by simp) (by simp) (by simp))
        · rintro ⟨k, hk, d, hiter, hld, -⟩
          cases k with
          | zero =>
            rw [show runIter loads s 0 = some s from rfl] at hiter
            injection hiter with hds
            rw [← hds] at hld
            rw [hl] at hld
            exact absurd hld (by simp)
          | succ m =>
            rw [hIterNone m] at hiter
            exact absurd hiter (by simp)
    | none =>
      cases ha : apply_fixes s with
      | none =>
        have hIterNone : ∀ m, runIter loads s (m + 1) = none :=
          runIter_crash_none loads s hl ha
        have hL : loopGo loads dumps original saved (fuel + 1) s =
            (Outcome.emptyLinesError, 1) := by
          rw [loopGo_succ_eq, hl, ha]
        refine ⟨?_, ?_, ?_⟩
        · rw [hL]
          constructor
          · intro h
            exact absurd h (by simp)
          · intro h
            rw [hIterNone fuel] at h
            exact absurd h (by simp)
        · intro reports
          rw [hL]
          constructor
          · intro h
            exact absurd h (by simp)
          · rintro ⟨k, hk, d, d', hiter, hld, had⟩
            cases k with
            | zero =>
              rw [show runIter loads s 0 = some s from rfl] at hiter
              injection hiter with hds
              rw [← hds, ha] at had
              exact absurd had (by simp)
            | succ m =>
              rw [hIterNone m] at hiter
              exact absurd hiter (by simp)
        · rw [hL]
          constructor
          · intro _
            exact ⟨0, by omega, s, rfl, hl, ha⟩
          · intro _
            rfl
      | some t =>
        obtain ⟨s', fixedFlag, reports0⟩ := t
        cases fixedFlag with
        | false =>
          have hIterNone : ∀ m, runIter loads s (m + 1) = none :=
            runIter_noProgress_none loads s s' reports0 hl ha
          have hL : loopGo loads dumps original saved (fuel + 1) s =
              (Outcome.noProgress reports0, 1) := by
            rw [loopGo_succ_eq, hl, ha]
            rfl
          refine ⟨?_, ?_, ?_⟩
          · rw [hL]
            constructor
            · intro h
              exact absurd h (by simp)
            · intro h
              rw [hIterNone fuel] at h
              exact absurd h (by simp)
          · intro reports
            rw [hL]
            constructor
            · intro h
              have hrep : reports0 = reports := by
                simpa using h
              exact ⟨0, by omega, s, s', rfl, hl, by rw [ha, hrep]⟩
            · rintro ⟨k, hk, d, d', hiter, hld, had⟩
              cases k with
              | zero =>
                rw [show runIter loads s 0 = some s from rfl] at hiter
                injection hiter with hds
                rw [← hds, ha] at had
                have hpair : s' = d' ∧ reports0 = reports := by
                  simpa using had
                rw [hpair.2]
              | succ m =>
                rw [hIterNone m] at hiter
                exact absurd hiter (by simp)
          · rw [hL]
            constructor
            · intro h
              exact absurd h (by simp)
            · rintro ⟨k, hk, d, hiter, hld, had⟩
              cases k with
              | zero =>
                rw [show runIter loads s 0 = some s from rfl] at hiter
                injection hiter with hds
                rw [← hds, ha] at had
                exact absurd had (by simp)
              | succ m =>
                rw [hIterNone m] at hiter
                exact absurd hiter (by simp)
        | true =>
          have hshift : ∀ k, runIter loads s (k + 1) = runIter loads s' k :=
            runIter_shift loads s s' reports0 hl ha
          have e1 : (loopGo loads dumps original saved (fuel + 1) s).1 =
              (loopGo loads dumps original saved fuel s').1 := by
            rw [loopGo_succ_eq, hl, ha]
            rfl
          obtain ⟨ih1, ih2, ih3⟩ := ih s'
          refine ⟨?_, ?_, ?_⟩
          · rw [e1, hshift fuel]
            exact ih1
          · intro reports
            rw [e1, ih2 reports]
            constructor
            · rintro ⟨k, hk, d, d', hiter, hld, had⟩
              exact ⟨k + 1, by omega, d, d', by rw [hshift k]; exact hiter, hld, had⟩
            · rintro ⟨k, hk, d, d', hiter, hld, had⟩
              cases k with
              | zero =>
                rw [show runIter loads s 0 = some s from rfl] at hiter
                injection hiter with hds
                rw [← hds, ha] at had
                have := had
                simp at this
              | succ m =>
                rw [hshift m] at hiter
                exact ⟨m, by omega, d, d', hiter, hld, had⟩
          · rw [e1, ih3]
            constructor
            · rintro ⟨k, hk, d, hiter, hld, had⟩
              exact ⟨k + 1, by omega, d, by rw [hshift k]; exact hiter, hld, had⟩
            · rintro ⟨k, hk, d, hiter, hld, had⟩
              cases k with
              | zero =>
                rw [show runIter loads s 0 = some s from rfl] at hiter
                injection hiter with hds
                rw [← hds, ha] at had
                exact absurd had (by simp)
              | succ m =>
                rw [hshift m] at hiter
                exact ⟨m, by omega, d, hiter, hld, had⟩

/-- Claim C7 amended: the repair loop performs at most 10 decode attempts,
    and a terminal failure arises in exactly three ways, not two: it fails
    with the reached-maximum-attempts message iff ten iterations each
    failed to decode and applied fixes with progress (the loop is still
    running after 10 steps); it fails with the no-further-fixes message,
    printing exactly the findings of that pass, iff some reachable
    iteration fails to decode and its apply-fixes pass completes changing
    nothing; and it fails with the generic unexpected-error message iff
    some reachable iteration fails to decode and its apply-fixes pass
    aborts on a zero-line working text (see claim C10), a failure mode the
    original claim's two-way disjunction omits. -/
theorem claim_C7_amended {J : Type} (loads : List Char → Option J)
    (dumps : J → List Char) (content : List Char)
    (saved : Option (List Char)) :
    (json_linter_and_fixer loads dumps content saved).2 ≤ 10 ∧
    ((json_linter_and_fixer loads dumps content saved).1 = Outcome.maxAttempts ↔
      (runIter loads content 10).isSome) ∧
    (∀ reports,
      (json_linter_and_fixer loads dumps content saved).1 =
        Outcome.noProgress reports ↔
      ∃ k, k < 10 ∧ ∃ d d', runIter loads content k = some d ∧
        loads d = none ∧ apply_fixes d = some (d', false, reports)) ∧
    ((json_linter_and_fixer loads dumps content saved).1 =
        Outcome.emptyLinesError ↔
      ∃ k, k < 10 ∧ ∃ d, runIter loads content k = some d ∧
        loads d = none ∧ apply_fixes d = none) ∧
    (isFailure (json_linter_and_fixer loads dumps content saved).1 = true ↔
      (json_linter_and_fixer loads dumps content saved).1 = Outcome.maxAttempts ∨
      (∃ reports, (json_linter_and_fixer loads dumps content saved).1 =
        Outcome.noProgress reports) ∨
      (json_linter_and_fixer loads dumps content saved).1 =
        Outcome.emptyLinesError) := by
  obtain ⟨m1, m2, m3⟩ := loopGo_outcome_iff loads dumps content saved 10 content
  refine ⟨loopGo_count_le loads dumps content saved 10 content, m1, m2, m3, ?_⟩
  cases h : (json_linter_and_fixer loads dumps content saved).1 <;>
    simp [isFailure]

/-- Counterexample to claim C7 as stated: on the empty input with a decoder
    that fails on it (as any JSON decoder does), the engine returns a
    terminal failure, yet that failure is neither the no-further-fixes
    outcome nor the reached-maximum-attempts outcome: the first apply-fixes
    pass aborts and the run ends in the generic unexpected-error outcome
    after a single decode attempt. -/
theorem claim_C7_counterexample :
    isFailure (json_linter_and_fixer (fun _ : List Char => (none : Option Unit))
      (fun _ => []) [] none).1 = true ∧
    (json_linter_and_fixer (fun _ : List Char => (none : Option Unit))
      (fun _ => []) [] none).1 ≠ Outcome.maxAttempts ∧
    ∀ reports, (json_linter_and_fixer (fun _ : List Char => (none : Option Unit))
      (fun _ => []) [] none).1 ≠ Outcome.noProgress reports := by
  refine ⟨rfl, by decide, ?_⟩
  intro reports h
  exact Outcome.noConfusion h
